import Mathlib

/-!
Verification of the multi-entity free-window comparison engine of
`src/bot/services/schedule.py` (class `ScheduleService` and `ScheduleCache`).

The Python source is shallowly embedded below:

* Python `list.sort` / `sorted` (Timsort) is a stable comparison sort; it is
  modelled by the stable insertion sort `py_sort` (equal elements keep their
  original relative order, exactly as in CPython).
* Python `None` is modelled by `Option.none`, strings by `String`.
* Python truthiness of an optional string (`if not s`) is modelled by
  `truthy_str`: both `None` and the empty string are falsy.
* Python `datetime` values are modelled by `PyDate` (calendar fields plus the
  value of `.weekday()`, Monday = 0); `datetime.strptime(s, "%Y-%m-%d")`
  is modelled by `parse_date` (`%Y` is exactly four digits, `%m` and `%d` are
  one or two digits, and the day is validated against the calendar, matching
  CPython's `_strptime`); `datetime.date` comparison is lexicographic on
  (year, month, day), modelled by `date_le`.
* Python dictionaries are modelled by association lists in insertion order
  (CPython dictionaries preserve insertion order; keys are unique).
* `datetime.now()` is modelled by an explicit integer clock in seconds;
  `timedelta(hours=h)` adds `3600 * h`.
-/

/-- Stable insertion of `x` into `l`: `x` goes in front of the first element
not strictly smaller than `x`, so among equals `x` is placed last of the
earlier-inserted ones. -/
def insert_in {α : Type} (lt : α → α → Bool) (x : α) : List α → List α
  | [] => [x]
  | y :: ys => if lt y x then y :: insert_in lt x ys else x :: y :: ys

/-- Stable sort, modelling Python's `list.sort` / `sorted` with the strict
comparison `lt` (Python compares with `<`): elements comparing equal keep
their original relative order. -/
def py_sort {α : Type} (lt : α → α → Bool) (l : List α) : List α :=
  l.foldr (insert_in lt) []

/-- Splitting a character list at every occurrence of `c`, the semantics of
Python's `str.split(c)` on the string's characters (an empty string gives
one empty group, a separator at the edge gives an empty group there). -/
def split_on_char (c : Char) : List Char → List (List Char)
  | [] => [[]]
  | x :: xs =>
    match split_on_char c xs with
    | [] => [[]]
    | g :: gs => if x = c then [] :: g :: gs else (x :: g) :: gs

/-- Value of a nonempty all-digit character group, `none` otherwise. Models
the digit groups matched by CPython `_strptime`. -/
def str_digits (l : List Char) : Option Nat :=
  if l ≠ [] ∧ l.all Char.isDigit then
    some (l.foldl (fun n c => 10 * n + (c.toNat - 48)) 0)
  else none

/-- Gregorian leap-year rule, as used by `datetime`. -/
def is_leap_year (y : Nat) : Bool :=
  (y % 4 == 0 && y % 100 != 0) || y % 400 == 0

/-- Number of days of month `m` of year `y`, as validated by `datetime`. -/
def days_in_month (y m : Nat) : Nat :=
  if m = 2 then (if is_leap_year y then 29 else 28)
  else if m = 4 ∨ m = 6 ∨ m = 9 ∨ m = 11 then 30
  else 31

/-- Model of `datetime.strptime(s, "%Y-%m-%d").date()`: `%Y` matches exactly
four digits, `%m` and `%d` match one or two digits, the month is 1..12, the
day is 1..days_in_month, and `datetime` requires year ≥ 1; any failure is a
`ValueError`, modelled by `none`. -/
def parse_date (s : String) : Option (Nat × Nat × Nat) :=
  match split_on_char (Char.ofNat 45) s.data with
  | [ys, ms, ds] =>
    match str_digits ys, str_digits ms, str_digits ds with
    | some y, some m, some d =>
      if ys.length = 4 ∧ (ms.length = 1 ∨ ms.length = 2) ∧
         (ds.length = 1 ∨ ds.length = 2) ∧ 1 ≤ y ∧
         1 ≤ m ∧ m ≤ 12 ∧ 1 ≤ d ∧ d ≤ days_in_month y m then
        some (y, m, d)
      else none
    | _, _, _ => none
  | _ => none

/-- Comparison of `datetime.date` values: lexicographic on (year, month, day). -/
def date_le (a b : Nat × Nat × Nat) : Bool :=
  decide (a.1 < b.1 ∨ (a.1 = b.1 ∧ (a.2.1 < b.2.1 ∨ (a.2.1 = b.2.1 ∧ a.2.2 ≤ b.2.2))))

/-- Python truthiness of an optional string: `None` and `""` are falsy. -/
def truthy_str (o : Option String) : Bool :=
  match o with
  | none => false
  | some s => s != ""

/-- A lesson record (`Pair` in the API): only the fields read by the code
under verification are modelled; `subject` stands for the remaining payload
and gives records an identity. Absent dictionary keys are `none`. -/
structure Lesson where
  subject : String
  start_date : Option String
  end_date : Option String
  deriving DecidableEq, Repr

/-- A `datetime` value as used by `get_schedule_for_date`: its calendar date
(`.date()`) and the result of `.weekday()` (Monday = 0). -/
structure PyDate where
  year : Nat
  month : Nat
  day : Nat
  weekday : Nat
  deriving DecidableEq, Repr

/-- Calendar triple of a `PyDate`, the value of `.date()`. -/
def PyDate.ymd (d : PyDate) : Nat × Nat × Nat := (d.year, d.month, d.day)

/-- Model of `ScheduleService._is_lesson_on_date`: valid when either bound is
absent or empty; when both are present, parse them with
`strptime "%Y-%m-%d"` and test `start.date() <= date.date() <= end.date()`;
a `ValueError` (unparsable bound) degrades to valid (with a logged warning,
not modelled). -/
def is_lesson_on_date (lesson : Lesson) (date : PyDate) : Bool :=
  if ¬ truthy_str lesson.start_date ∨ ¬ truthy_str lesson.end_date then true
  else
    match parse_date (lesson.start_date.getD ""), parse_date (lesson.end_date.getD "") with
    | some ds, some de => date_le ds date.ymd && date_le date.ymd de
    | _, _ => true

/-- The `weekday_names` mapping of `get_schedule_for_date`, with the
`.get(weekday, '')` default. -/
def weekday_name (w : Nat) : String :=
  match w with
  | 0 => "monday"
  | 1 => "tuesday"
  | 2 => "wednesday"
  | 3 => "thursday"
  | 4 => "friday"
  | 5 => "saturday"
  | 6 => "sunday"
  | _ => ""

/-- A schedule document (`Week` format): weekday name to slot-number-keyed
lists of lessons, both mappings in dictionary insertion order. -/
abbrev ScheduleDoc := List (String × List (Int × List Lesson))

/-- Model of `ScheduleService.get_schedule_for_date`: take the day table of
the weekday of `date` (missing day ⇒ empty), keep the lessons valid on
`date`, attach each lesson's slot number (`pair_number`), and stable-sort by
slot number. -/
def get_schedule_for_date (schedule_data : ScheduleDoc) (date : PyDate) :
    List (Lesson × Int) :=
  let day_data := ((schedule_data.find? (fun kv => kv.1 = weekday_name date.weekday)).map
    (fun kv => kv.2)).getD []
  let lessons := day_data.flatMap (fun sl =>
    (sl.2.filter (fun p => is_lesson_on_date p date)).map (fun p => (p, sl.1)))
  py_sort (fun a b => a.2 < b.2) lessons

/-- The `ScheduleCache.cache` dictionary: key to (data, expires_at), in
insertion order, with the clock in seconds. -/
abbrev ScheduleCache (α : Type) := List (String × α × Int)

/-- Python dictionary assignment `d[k] = v`: overwrite in place if the key
exists, else append. -/
def dict_set {α : Type} : ScheduleCache α → String → α × Int → ScheduleCache α
  | [], k, v => [(k, v)]
  | (k0, v0) :: rest, k, v =>
    if k0 = k then (k, v) :: rest else (k0, v0) :: dict_set rest k v

/-- Python `del d[k]` for a dictionary (keys are unique, so the first match
is the only one). -/
def dict_del {α : Type} : ScheduleCache α → String → ScheduleCache α
  | [], _ => []
  | (k0, v0) :: rest, k => if k0 = k then rest else (k0, v0) :: dict_del rest k

/-- Python `k in d` / `d[k]` lookup. -/
def dict_find {α : Type} (c : ScheduleCache α) (k : String) : Option (α × Int) :=
  (c.find? (fun kv => kv.1 = k)).map (fun kv => kv.2)

/-- Model of `ScheduleCache.get` at clock `now`: a fresh entry is returned,
an expired entry is deleted (lazy eviction) and a miss is `none`. Returns
the result together with the updated dictionary. -/
def cache_get {α : Type} (c : ScheduleCache α) (now : Int) (k : String) :
    Option α × ScheduleCache α :=
  match dict_find c k with
  | some (data, expires_at) =>
    if now < expires_at then (some data, c) else (none, dict_del c k)
  | none => (none, c)

/-- Model of `ScheduleCache.set` at clock `now`:
`cache[key] = (data, now + timedelta(hours=ttl_hours))`. -/
def cache_set {α : Type} (c : ScheduleCache α) (now : Int) (k : String)
    (data : α) (ttl_hours : Int) : ScheduleCache α :=
  dict_set c k (data, now + 3600 * ttl_hours)

/-- Model of `ScheduleCache.clear`: `self.cache.clear()`. -/
def cache_clear {α : Type} (_ : ScheduleCache α) : ScheduleCache α := []

/-- A busy interval `(start_minutes, end_minutes, location)`, the element
type produced by `_get_busy_intervals` (location defaults to `''`). -/
abbrev BusyInterval := Int × Int × String

/-- Python `<` on `(int, int, str)` tuples (lexicographic; strings compare
by code points), the order used by `intervals.sort()`. -/
def interval_lt (a b : BusyInterval) : Bool :=
  decide (a.1 < b.1 ∨ (a.1 = b.1 ∧ (a.2.1 < b.2.1 ∨ (a.2.1 = b.2.1 ∧ a.2.2 < b.2.2))))

/-- The merge loop of `_get_busy_intervals` (lines 607-616): `last` is
`merged[-1]`; a new interval is folded into it when it starts at or before
`last`'s end and has exactly the same location string, extending the end to
the maximum; otherwise it opens a new merged interval. -/
def merge_loop : BusyInterval → List BusyInterval → List BusyInterval
  | last, [] => [last]
  | last, cur :: rest =>
    if cur.1 ≤ last.2.1 ∧ cur.2.2 = last.2.2 then
      merge_loop (last.1, max last.2.1 cur.2.1, last.2.2) rest
    else
      last :: merge_loop cur rest

/-- The sort-and-merge stage of `_get_busy_intervals` (lines 603-618):
sort the collected `(start, end, location)` tuples with Python tuple `<`,
then run the merge loop starting from the first interval. -/
def merge_busy_intervals (intervals : List BusyInterval) : List BusyInterval :=
  match py_sort interval_lt intervals with
  | [] => []
  | first :: rest => merge_loop first rest

/-- A timeline segment `(start, end, location)` where the location is
`None` (no lessons all day), a location string (possibly empty), or a
transit marker string. -/
abbrev TimelineSeg := Int × Int × Option String

/-- Transit marker produced between busy intervals at different locations:
an f-string in the source. -/
def transit_label (a b : String) : String :=
  "переезд_" ++ a ++ "_to_" ++ b

/-- The main loop of `_get_group_location_timeline` (lines 652-681) over the
sorted busy intervals, with `current_time` as an explicit argument. Note
that `current_time` is not advanced after the inter-lesson gap segment is
appended, so the gap before a non-first interval is appended again by the
`current_time < start` branch of the next iteration, exactly as in the
source. -/
def build_timeline : List BusyInterval → Int → Int → List TimelineSeg
  | [], _, _ => []
  | [(s, e, loc)], current_time, day_end =>
    (if current_time < s then [(current_time, s, some loc)] else []) ++
    [(s, e, some loc)] ++
    (if e < day_end then [(e, day_end, some loc)] else [])
  | (s, e, loc) :: (ns, ne, nloc) :: rest, current_time, day_end =>
    (if current_time < s then [(current_time, s, some loc)] else []) ++
    [(s, e, some loc)] ++
    [(e, ns, some (if nloc ≠ loc then transit_label loc nloc else loc))] ++
    build_timeline ((ns, ne, nloc) :: rest) e day_end

/-- Model of `ScheduleService._get_group_location_timeline`: no busy
intervals ⇒ a single unconstrained (`None`) day segment; busy intervals all
with empty locations ⇒ a single `""` day segment; otherwise walk the busy
intervals sorted by start (`key=lambda x: x[0]`, a stable sort) building the
day cover with transit markers. -/
def get_group_location_timeline (busy_intervals : List BusyInterval)
    (day_start day_end : Int) : List TimelineSeg :=
  if busy_intervals = [] then [(day_start, day_end, none)]
  else if busy_intervals.all (fun iv => iv.2.2 == "") then
    [(day_start, day_end, some "")]
  else
    build_timeline (py_sort (fun a b => a.1 < b.1) busy_intervals) day_start day_end

/-- Day start used by the intersector: `_time_to_minutes("09:00")`. -/
def day_start : Int := 540

/-- Day end used by the intersector: `_time_to_minutes("21:00")`. -/
def day_end : Int := 1260

/-- The timelines built by `_find_free_intervals_with_location` for every
compared entity. -/
def timelines_of (all_busy_intervals : List (List BusyInterval)) :
    List (List TimelineSeg) :=
  all_busy_intervals.map (fun b => get_group_location_timeline b day_start day_end)

/-- The sorted deduplicated time points of
`_find_free_intervals_with_location`: `sorted(set(...))` over the day bounds
and every segment boundary of every timeline. -/
def time_points (all_busy_intervals : List (List BusyInterval)) : List Int :=
  (py_sort (fun a b : Int => decide (a < b))
    (day_start :: day_end ::
      (timelines_of all_busy_intervals).flatMap
        (fun tl => tl.flatMap (fun seg => [seg.1, seg.2.1])))).dedup

/-- The candidate slices: each adjacent pair of time points. -/
def slice_pairs (l : List Int) : List (Int × Int) := l.zip l.tail

/-- The covering-label lookup of the intersector: the first timeline segment
with `start <= interval_start and end >= interval_end` (the loop breaks at
the first hit); `none` when no segment covers the slice. -/
def covering_label (tl : List TimelineSeg) (a b : Int) : Option (Option String) :=
  (tl.find? (fun seg => decide (seg.1 ≤ a ∧ b ≤ seg.2.1))).map (fun seg => seg.2.2)

/-- The transit filter of the intersector:
`loc and loc.startswith("переезд_")`. -/
def is_transit (loc : Option String) : Bool :=
  match loc with
  | none => false
  | some s => "переезд_".data.isPrefixOf s.data

/-- The genuine-busy check of the intersector: some busy interval of this
entity satisfies `start < interval_end and end > interval_start`. -/
def overlaps_busy (busy : List BusyInterval) (a b : Int) : Bool :=
  busy.any (fun iv => decide (iv.1 < b ∧ a < iv.2.1))

/-- The `groups_locations.values()` list of the intersector, in entity
order; entities whose timeline does not cover the slice are absent. -/
def slice_labels (timelines : List (List TimelineSeg)) (a b : Int) :
    List (Option String) :=
  timelines.filterMap (fun tl => covering_label tl a b)

/-- An output window `(start, end, location, participant_count)`; the
single-entry dictionary `{location: len(timelines)}` of the source is
modelled as the pair of its key and value. -/
abbrev FreeWindow := Int × Int × String × Nat

/-- The per-slice body of the main loop of
`_find_free_intervals_with_location` (lines 744-766): duration check, then
coverage of every entity, the transit filter, the genuine-busy filter and
the location-agreement decision (`"Любая"` is the "Any" label). The final
branch keeps the slice only when the distinct-label count is 1 and
`locations[0]` is truthy (a non-`None`, nonempty string). -/
def slice_result (timelines : List (List TimelineSeg))
    (all_busy_intervals : List (List BusyInterval)) (min_duration a b : Int) :
    Option FreeWindow :=
  if b - a < min_duration then none
  else if (slice_labels timelines a b).length ≠ timelines.length then none
  else if (slice_labels timelines a b).any is_transit then none
  else if all_busy_intervals.any (fun busy => overlaps_busy busy a b) then none
  else if (slice_labels timelines a b).all Option.isNone then
    some (a, b, "Любая", timelines.length)
  else
    match slice_labels timelines a b with
    | some s :: _ =>
      if (slice_labels timelines a b).dedup.length = 1 ∧ s ≠ "" then
        some (a, b, s, timelines.length)
      else none
    | _ => none

/-- Model of `ScheduleService._find_free_intervals_with_location`: build the
per-entity timelines, cut the day at every segment boundary and keep each
candidate slice that passes all the checks, in time order. -/
def find_free_intervals_with_location
    (all_busy_intervals : List (List BusyInterval)) (min_duration : Int) :
    List FreeWindow :=
  (slice_pairs (time_points all_busy_intervals)).filterMap
    (fun p => slice_result (timelines_of all_busy_intervals) all_busy_intervals
      min_duration p.1 p.2)

/-- Acceptance of a candidate slice, for stating run properties. -/
def slice_accepted (all_busy_intervals : List (List BusyInterval))
    (min_duration a b : Int) : Bool :=
  (slice_result (timelines_of all_busy_intervals) all_busy_intervals
    min_duration a b).isSome

/-- Timeline segments tile `[lo, hi)` exactly: each segment starts where the
previous one ended (so they are contiguous and non-overlapping), the first
starts at `lo`, every segment has positive length, and the last ends at
`hi`. -/
def is_tiling (lo hi : Int) : List TimelineSeg → Bool
  | [] => lo == hi
  | (a, b, _) :: rest => a == lo && decide (a < b) && is_tiling b hi rest

/-! ## General helper lemmas -/

theorem mem_insert_in {α : Type} (lt : α → α → Bool) (x a : α) (l : List α) :
    a ∈ insert_in lt x l ↔ a = x ∨ a ∈ l := by
  induction l with
  | nil => simp [insert_in]
  | cons y ys ih =>
    by_cases h : lt y x = true
    · simp only [insert_in, if_pos h, List.mem_cons, ih]
      tauto
    · simp only [insert_in, if_neg h, List.mem_cons]

theorem insert_in_perm {α : Type} (lt : α → α → Bool) (x : α) (l : List α) :
    (insert_in lt x l).Perm (x :: l) := by
  induction l with
  | nil => simp [insert_in]
  | cons y ys ih =>
    by_cases h : lt y x = true
    · simp only [insert_in, if_pos h]
      exact (ih.cons y).trans (List.Perm.swap x y ys)
    · simp [insert_in, if_neg h]

theorem py_sort_perm {α : Type} (lt : α → α → Bool) (l : List α) :
    (py_sort lt l).Perm l := by
  induction l with
  | nil => simp [py_sort]
  | cons y ys ih =>
    have : py_sort lt (y :: ys) = insert_in lt y (py_sort lt ys) := rfl
    rw [this]
    exact (insert_in_perm lt y (py_sort lt ys)).trans (ih.cons y)

theorem py_sort_mem {α : Type} (lt : α → α → Bool) (a : α) (l : List α) :
    a ∈ py_sort lt l ↔ a ∈ l :=
  (py_sort_perm lt l).mem_iff

theorem pairwise_insert_in {α : Type} (lt : α → α → Bool)
    (hasym : ∀ a b, lt a b = true → lt b a = false)
    (htr : ∀ a b c, lt b a = false → lt c b = false → lt c a = false)
    (x : α) (l : List α) (h : l.Pairwise (fun a b => lt b a = false)) :
    (insert_in lt x l).Pairwise (fun a b => lt b a = false) := by
  induction l with
  | nil => simp [insert_in]
  | cons y ys ih =>
    rcases List.pairwise_cons.mp h with ⟨hy, hys⟩
    by_cases hxy : lt y x = true
    · simp only [insert_in, if_pos hxy]
      refine List.pairwise_cons.mpr ⟨?_, ih hys⟩
      intro z hz
      rcases (mem_insert_in lt x z ys).mp hz with rfl | hz
      · exact hasym y z hxy
      · exact hy z hz
    · simp only [insert_in, if_neg hxy]
      refine List.pairwise_cons.mpr ⟨?_, h⟩
      intro z hz
      rcases List.mem_cons.mp hz with rfl | hz
      · exact Bool.eq_false_iff.mpr hxy
      · have hyx : lt y x = false := Bool.eq_false_iff.mpr hxy
        exact htr x y z hyx (hy z hz)

theorem py_sort_pairwise {α : Type} (lt : α → α → Bool)
    (hasym : ∀ a b, lt a b = true → lt b a = false)
    (htr : ∀ a b c, lt b a = false → lt c b = false → lt c a = false)
    (l : List α) : (py_sort lt l).Pairwise (fun a b => lt b a = false) := by
  induction l with
  | nil => simp [py_sort]
  | cons y ys ih => exact pairwise_insert_in lt hasym htr y (py_sort lt ys) ih

theorem filterMap_length_all_some {α β : Type} (f : α → Option β) (l : List α)
    (h : (l.filterMap f).length = l.length) :
    ∀ x ∈ l, ∃ y, f x = some y ∧ y ∈ l.filterMap f := by
  induction l with
  | nil => simp
  | cons a l ih =>
    rw [List.filterMap_cons] at h ⊢
    match hfa : f a with
    | none =>
      exfalso
      rw [hfa] at h
      have := List.length_filterMap_le f l
      simp at h
      omega
    | some b =>
      rw [hfa] at h
      simp only [List.length_cons] at h
      intro x hx
      rcases List.mem_cons.mp hx with rfl | hx
      · exact ⟨b, hfa, by simp⟩
      · rcases ih (by omega) x hx with ⟨y, hy, hmem⟩
        exact ⟨y, hy, by simp [hmem]⟩

theorem filterMap_all_const {α β : Type} (f : α → Option β) (l : List α) (c : β)
    (h : ∀ x ∈ l, f x = some c) :
    l.filterMap f = List.replicate l.length c := by
  induction l with
  | nil => simp
  | cons a l ih =>
    rw [List.filterMap_cons, h a (by simp), List.length_cons, List.replicate_succ]
    rw [ih (fun x hx => h x (by simp [hx]))]

theorem dedup_replicate_succ {α : Type} [DecidableEq α] (n : Nat) (c : α) :
    (List.replicate (n + 1) c).dedup = [c] := by
  induction n with
  | zero => rfl
  | succ m ih =>
    rw [List.replicate_succ, List.dedup_cons_of_mem] <;>
      simp_all [List.mem_replicate]

theorem dedup_length_one_all_eq {α : Type} [DecidableEq α] (l : List α)
    (h : l.dedup.length = 1) : ∀ a ∈ l, ∀ b ∈ l, a = b := by
  rcases List.length_eq_one.mp h with ⟨c, hc⟩
  intro a ha b hb
  have ha2 : a ∈ l.dedup := List.mem_dedup.mpr ha
  have hb2 : b ∈ l.dedup := List.mem_dedup.mpr hb
  rw [hc] at ha2 hb2
  simp at ha2 hb2
  rw [ha2, hb2]

/-! ## Lemmas about the intersector's building blocks -/

theorem covering_label_some (tl : List TimelineSeg) (a b : Int) (y : Option String)
    (h : covering_label tl a b = some y) :
    ∃ seg ∈ tl, (seg.1 ≤ a ∧ b ≤ seg.2.1) ∧ seg.2.2 = y := by
  unfold covering_label at h
  rcases Option.map_eq_some'.mp h with ⟨seg, hfind, hy⟩
  refine ⟨seg, List.mem_of_find?_eq_some hfind, ?_, hy⟩
  have := List.find?_some hfind
  exact of_decide_eq_true this

theorem slice_result_some_shape (tls : List (List TimelineSeg))
    (ab : List (List BusyInterval)) (md a b : Int) (w : FreeWindow)
    (h : slice_result tls ab md a b = some w) :
    w.1 = a ∧ w.2.1 = b ∧ w.2.2.2 = tls.length ∧ ¬ (b - a < md) ∧
    (slice_labels tls a b).length = tls.length ∧
    (slice_labels tls a b).any is_transit = false ∧
    ab.any (fun busy => overlaps_busy busy a b) = false ∧
    (∀ y ∈ slice_labels tls a b, ∀ z ∈ slice_labels tls a b, y = z) := by
  unfold slice_result at h
  split at h
  · exact absurd h (by simp)
  split at h
  · exact absurd h (by simp)
  split at h
  · exact absurd h (by simp)
  split at h
  · exact absurd h (by simp)
  split at h
  · rename_i hdur hlen htr hbusy hnone
    cases h
    refine ⟨rfl, rfl, rfl, hdur, by omega, ?_, by simpa using hbusy, ?_⟩
    · simp only [Bool.not_eq_true] at htr
      simpa using htr
    · intro y hy z hz
      have hyn := List.all_eq_true.mp hnone y hy
      have hzn := List.all_eq_true.mp hnone z hz
      rw [Option.isNone_iff_eq_none.mp hyn, Option.isNone_iff_eq_none.mp hzn]
  · rename_i hdur hlen htr hbusy hnone
    split at h
    · rename_i s rest hmatch
      split at h
      · rename_i hcond
        cases h
        refine ⟨rfl, rfl, rfl, hdur, by omega, ?_, by simpa using hbusy, ?_⟩
        · simp only [Bool.not_eq_true] at htr
          simpa using htr
        · exact dedup_length_one_all_eq _ hcond.1
      · exact absurd h (by simp)
    · exact absurd h (by simp)

theorem mem_find_free (ab : List (List BusyInterval)) (md : Int) (w : FreeWindow) :
    w ∈ find_free_intervals_with_location ab md ↔
      ∃ p ∈ slice_pairs (time_points ab),
        slice_result (timelines_of ab) ab md p.1 p.2 = some w := by
  unfold find_free_intervals_with_location
  exact List.mem_filterMap

theorem not_mem_find_free_of_none (ab : List (List BusyInterval)) (md t u : Int)
    (h : slice_result (timelines_of ab) ab md t u = none) :
    ∀ info : String × Nat, (t, u, info) ∉ find_free_intervals_with_location ab md := by
  intro info hmem
  rcases (mem_find_free ab md (t, u, info)).mp hmem with ⟨p, _, hres⟩
  have hshape := slice_result_some_shape _ _ _ _ _ _ hres
  have h1 : p.1 = t := hshape.1.symm
  have h2 : p.2 = u := hshape.2.1.symm
  rw [h1, h2, h] at hres
  exact absurd hres (by simp)

theorem sorted_time_points (ab : List (List BusyInterval)) :
    (time_points ab).Pairwise (fun x y => x < y) := by
  unfold time_points
  have hsorted := py_sort_pairwise (fun a b : Int => decide (a < b))
    (by intro a b h; simp at h ⊢; omega)
    (by intro a b c h1 h2; simp at h1 h2 ⊢; omega)
    (day_start :: day_end ::
      (timelines_of ab).flatMap (fun tl => tl.flatMap (fun seg => [seg.1, seg.2.1])))
  have hdd := List.Pairwise.sublist (List.dedup_sublist _) hsorted
  have hnodup : (List.dedup (py_sort (fun a b : Int => decide (a < b))
      (day_start :: day_end ::
        (timelines_of ab).flatMap (fun tl => tl.flatMap (fun seg => [seg.1, seg.2.1]))))).Nodup :=
    List.nodup_dedup _
  have := hdd.and hnodup
  exact this.imp (by intro a b hab; rcases hab with ⟨h1, h2⟩; simp at h1; omega)

theorem slice_pairs_mem (l : List Int) (p : Int × Int) (h : p ∈ slice_pairs l) :
    p.1 ∈ l ∧ p.2 ∈ l := by
  rcases p with ⟨a, b⟩
  have := List.of_mem_zip h
  exact ⟨this.1, (List.tail_sublist l).mem this.2⟩

theorem slice_pairs_cons_cons (x y : Int) (l : List Int) :
    slice_pairs (x :: y :: l) = (x, y) :: slice_pairs (y :: l) := rfl

theorem slice_pairs_lt (l : List Int) (h : l.Pairwise (fun x y => x < y)) :
    ∀ p ∈ slice_pairs l, p.1 < p.2 := by
  induction l with
  | nil => simp [slice_pairs]
  | cons x xs ih =>
    cases xs with
    | nil => simp [slice_pairs]
    | cons y ys =>
      intro p hp
      rw [slice_pairs_cons_cons] at hp
      rcases List.mem_cons.mp hp with rfl | hp
      · exact (List.pairwise_cons.mp h).1 y (by simp)
      · exact ih (List.pairwise_cons.mp h).2 p hp

theorem slice_pairs_fst_lt (l : List Int) (h : l.Pairwise (fun x y => x < y)) :
    (slice_pairs l).Pairwise (fun p q => p.1 < q.1) := by
  induction l with
  | nil => exact List.Pairwise.nil
  | cons x xs ih =>
    cases xs with
    | nil => exact List.Pairwise.nil
    | cons y ys =>
      rw [slice_pairs_cons_cons]
      refine List.pairwise_cons.mpr ⟨?_, ih (List.pairwise_cons.mp h).2⟩
      intro q hq
      have hmem := (slice_pairs_mem _ q hq).1
      exact (List.pairwise_cons.mp h).1 q.1 hmem

theorem build_timeline_endpoint_mem :
    ∀ (l : List BusyInterval) (cur de : Int) (seg : TimelineSeg),
      seg ∈ build_timeline l cur de →
      (seg.1 = cur ∨ seg.1 = de ∨ ∃ iv ∈ l, seg.1 = iv.1 ∨ seg.1 = iv.2.1) ∧
      (seg.2.1 = cur ∨ seg.2.1 = de ∨ ∃ iv ∈ l, seg.2.1 = iv.1 ∨ seg.2.1 = iv.2.1)
  | [], _, _, seg, h => absurd h (by simp [build_timeline])
  | [(s, e, loc)], cur, de, seg, h => by
      simp only [build_timeline, List.append_assoc, List.mem_append] at h
      rcases h with h | h | h
      · split at h <;> simp at h
        subst h
        exact ⟨Or.inl rfl, Or.inr (Or.inr ⟨(s, e, loc), by simp, Or.inl rfl⟩)⟩
      · simp at h
        subst h
        exact ⟨Or.inr (Or.inr ⟨(s, e, loc), by simp, Or.inl rfl⟩),
          Or.inr (Or.inr ⟨(s, e, loc), by simp, Or.inr rfl⟩)⟩
      · split at h <;> simp at h
        subst h
        exact ⟨Or.inr (Or.inr ⟨(s, e, loc), by simp, Or.inr rfl⟩), Or.inr (Or.inl rfl)⟩
  | (s, e, loc) :: (ns, ne, nloc) :: rest, cur, de, seg, h => by
      have hhd : ((s, e, loc) : BusyInterval) ∈ (s, e, loc) :: (ns, ne, nloc) :: rest := by simp
      have hnx : ((ns, ne, nloc) : BusyInterval) ∈ (s, e, loc) :: (ns, ne, nloc) :: rest := by simp
      simp only [build_timeline, List.append_assoc, List.mem_append] at h
      rcases h with h | h | h | h
      · split at h <;> simp at h
        subst h
        exact ⟨Or.inl rfl, Or.inr (Or.inr ⟨(s, e, loc), hhd, Or.inl rfl⟩)⟩
      · simp at h
        subst h
        exact ⟨Or.inr (Or.inr ⟨(s, e, loc), hhd, Or.inl rfl⟩),
          Or.inr (Or.inr ⟨(s, e, loc), hhd, Or.inr rfl⟩)⟩
      · simp at h
        subst h
        exact ⟨Or.inr (Or.inr ⟨(s, e, loc), hhd, Or.inr rfl⟩),
          Or.inr (Or.inr ⟨(ns, ne, nloc), hnx, Or.inl rfl⟩)⟩
      · have ih := build_timeline_endpoint_mem ((ns, ne, nloc) :: rest) e de seg h
        have lift : ∀ x : Int,
            (x = e ∨ x = de ∨ ∃ iv ∈ (ns, ne, nloc) :: rest, x = iv.1 ∨ x = iv.2.1) →
            (x = cur ∨ x = de ∨
              ∃ iv ∈ (s, e, loc) :: (ns, ne, nloc) :: rest, x = iv.1 ∨ x = iv.2.1) := by
          intro x hx
          rcases hx with hxe | hxde | ⟨iv, hiv, hx⟩
          · exact Or.inr (Or.inr ⟨(s, e, loc), hhd, Or.inr hxe⟩)
          · exact Or.inr (Or.inl hxde)
          · exact Or.inr (Or.inr ⟨iv, by simp [List.mem_cons.mp hiv], hx⟩)
        exact ⟨lift seg.1 ih.1, lift seg.2.1 ih.2⟩

theorem timeline_endpoint_mem (busy : List BusyInterval) (seg : TimelineSeg)
    (h : seg ∈ get_group_location_timeline busy day_start day_end) :
    (seg.1 = day_start ∨ seg.1 = day_end ∨ ∃ iv ∈ busy, seg.1 = iv.1 ∨ seg.1 = iv.2.1) ∧
    (seg.2.1 = day_start ∨ seg.2.1 = day_end ∨ ∃ iv ∈ busy, seg.2.1 = iv.1 ∨ seg.2.1 = iv.2.1) := by
  unfold get_group_location_timeline at h
  split at h
  · simp at h
    subst h
    exact ⟨Or.inl rfl, Or.inr (Or.inl rfl)⟩
  split at h
  · simp at h
    subst h
    exact ⟨Or.inl rfl, Or.inr (Or.inl rfl)⟩
  · have := build_timeline_endpoint_mem _ _ _ _ h
    have lift : ∀ x : Int,
        (x = day_start ∨ x = day_end ∨
          ∃ iv ∈ py_sort (fun a b => decide (a.1 < b.1)) busy, x = iv.1 ∨ x = iv.2.1) →
        (x = day_start ∨ x = day_end ∨ ∃ iv ∈ busy, x = iv.1 ∨ x = iv.2.1) := by
      intro x hx
      rcases hx with rfl | rfl | ⟨iv, hiv, hx⟩
      · exact Or.inl rfl
      · exact Or.inr (Or.inl rfl)
      · exact Or.inr (Or.inr ⟨iv, (py_sort_mem _ iv busy).mp hiv, hx⟩)
    exact ⟨lift seg.1 this.1, lift seg.2.1 this.2⟩

theorem mem_time_points (ab : List (List BusyInterval)) (x : Int)
    (h : x ∈ time_points ab) :
    x = day_start ∨ x = day_end ∨ ∃ busy ∈ ab, ∃ iv ∈ busy, x = iv.1 ∨ x = iv.2.1 := by
  unfold time_points at h
  have h2 := (py_sort_mem _ x _).mp (List.mem_dedup.mp h)
  rcases List.mem_cons.mp h2 with rfl | h3
  · exact Or.inl rfl
  rcases List.mem_cons.mp h3 with rfl | h4
  · exact Or.inr (Or.inl rfl)
  rcases List.mem_flatMap.mp h4 with ⟨tl, htl, hx⟩
  rcases List.mem_flatMap.mp hx with ⟨seg, hseg, hx2⟩
  rcases List.mem_map.mp htl with ⟨busy, hbusy, rfl⟩
  have hep := timeline_endpoint_mem busy seg hseg
  simp only [List.mem_cons, List.mem_singleton] at hx2
  rcases hx2 with rfl | hx2
  · rcases hep.1 with h5 | h5 | ⟨iv, hiv, h5⟩
    · exact Or.inl h5
    · exact Or.inr (Or.inl h5)
    · exact Or.inr (Or.inr ⟨busy, hbusy, iv, hiv, h5⟩)
  · simp at hx2
    subst hx2
    rcases hep.2 with h5 | h5 | ⟨iv, hiv, h5⟩
    · exact Or.inl h5
    · exact Or.inr (Or.inl h5)
    · exact Or.inr (Or.inr ⟨busy, hbusy, iv, hiv, h5⟩)

theorem build_timeline_end_shape :
    ∀ (l : List BusyInterval) (cur de : Int) (seg : TimelineSeg),
      seg ∈ build_timeline l cur de →
      (∃ iv ∈ l, seg.2.1 = iv.1) ∨ (∃ iv ∈ l, seg.1 = iv.1 ∧ seg.2.1 = iv.2.1) ∨
        seg.2.1 = de
  | [], _, _, seg, h => absurd h (by simp [build_timeline])
  | [(s, e, loc)], cur, de, seg, h => by
      simp only [build_timeline, List.append_assoc, List.mem_append] at h
      rcases h with h | h | h
      · split at h <;> simp at h
        subst h
        exact Or.inl ⟨(s, e, loc), by simp, rfl⟩
      · simp at h
        subst h
        exact Or.inr (Or.inl ⟨(s, e, loc), by simp, rfl, rfl⟩)
      · split at h <;> simp at h
        subst h
        exact Or.inr (Or.inr rfl)
  | (s, e, loc) :: (ns, ne, nloc) :: rest, cur, de, seg, h => by
      have hhd : ((s, e, loc) : BusyInterval) ∈ (s, e, loc) :: (ns, ne, nloc) :: rest := by simp
      have hnx : ((ns, ne, nloc) : BusyInterval) ∈ (s, e, loc) :: (ns, ne, nloc) :: rest := by simp
      simp only [build_timeline, List.append_assoc, List.mem_append] at h
      rcases h with h | h | h | h
      · split at h <;> simp at h
        subst h
        exact Or.inl ⟨(s, e, loc), hhd, rfl⟩
      · simp at h
        subst h
        exact Or.inr (Or.inl ⟨(s, e, loc), hhd, rfl, rfl⟩)
      · simp at h
        subst h
        exact Or.inl ⟨(ns, ne, nloc), hnx, rfl⟩
      · rcases build_timeline_end_shape ((ns, ne, nloc) :: rest) e de seg h with
          ⟨iv, hiv, h5⟩ | ⟨iv, hiv, h5⟩ | h5
        · exact Or.inl ⟨iv, by simp [List.mem_cons.mp hiv], h5⟩
        · exact Or.inr (Or.inl ⟨iv, by simp [List.mem_cons.mp hiv], h5⟩)
        · exact Or.inr (Or.inr h5)

theorem timeline_end_shape (busy : List BusyInterval) (seg : TimelineSeg)
    (h : seg ∈ get_group_location_timeline busy day_start day_end) :
    (∃ iv ∈ busy, seg.2.1 = iv.1) ∨ (∃ iv ∈ busy, seg.1 = iv.1 ∧ seg.2.1 = iv.2.1) ∨
      seg.2.1 = day_end := by
  unfold get_group_location_timeline at h
  split at h
  · simp at h
    subst h
    exact Or.inr (Or.inr rfl)
  split at h
  · simp at h
    subst h
    exact Or.inr (Or.inr rfl)
  · rcases build_timeline_end_shape _ _ _ _ h with ⟨iv, hiv, h5⟩ | ⟨iv, hiv, h5⟩ | h5
    · exact Or.inl ⟨iv, (py_sort_mem _ iv busy).mp hiv, h5⟩
    · exact Or.inr (Or.inl ⟨iv, (py_sort_mem _ iv busy).mp hiv, h5⟩)
    · exact Or.inr (Or.inr h5)

/-! ## Lemmas about the cache dictionary -/

theorem dict_find_not_mem {α : Type} (c : ScheduleCache α) (k : String)
    (h : ∀ kv ∈ c, kv.1 ≠ k) : dict_find c k = none := by
  unfold dict_find
  rw [List.find?_eq_none.mpr (by intro kv hkv; simpa using h kv hkv)]
  rfl

theorem dict_find_dict_set {α : Type} (c : ScheduleCache α) (k : String) (v : α × Int) :
    dict_find (dict_set c k v) k = some v := by
  induction c with
  | nil => simp [dict_set, dict_find]
  | cons kv rest ih =>
    rcases kv with ⟨k0, v0⟩
    by_cases hk : k0 = k
    · simp [dict_set, hk, dict_find]
    · simp only [dict_set, if_neg hk]
      unfold dict_find at ih ⊢
      rw [List.find?_cons_of_neg _ (by simpa using hk)]
      exact ih

theorem dict_find_del_set {α : Type} (c : ScheduleCache α) (k : String) (v : α × Int)
    (h : (c.map (fun kv => kv.1)).Nodup) :
    dict_find (dict_del (dict_set c k v) k) k = none := by
  induction c with
  | nil => simp [dict_set, dict_del, dict_find]
  | cons kv rest ih =>
    rcases kv with ⟨k0, v0⟩
    simp only [List.map_cons, List.nodup_cons] at h
    by_cases hk : k0 = k
    · simp only [dict_set, if_pos hk, dict_del, if_pos rfl]
      refine dict_find_not_mem rest k ?_
      intro kv hkv hkk
      exact h.1 (hk ▸ hkk ▸ List.mem_map_of_mem (fun kv => kv.1) hkv)
    · simp only [dict_set, if_neg hk, dict_del, if_neg hk]
      unfold dict_find at ih ⊢
      rw [List.find?_cons_of_neg _ (by simpa using hk)]
      exact ih h.2

/-! ## Claim theorems -/

/-- C9: for the schedule cache, `set(k, v, ttl)` followed by `get(k)` before
the TTL has elapsed returns `v`; once the clock advances past the TTL,
`get(k)` returns a miss and that lookup evicts the expired entry; `clear()`
removes every entry. (The dictionary invariant that keys are unique is a
hypothesis; Python dictionaries satisfy it by construction.) -/
theorem c9_cache_ttl {α : Type} (c : ScheduleCache α) (now now1 now2 ttl : Int)
    (k : String) (v : α) (hnodup : (c.map (fun kv => kv.1)).Nodup) :
    (now1 < now + 3600 * ttl →
      (cache_get (cache_set c now k v ttl) now1 k).1 = some v) ∧
    (now + 3600 * ttl ≤ now2 →
      (cache_get (cache_set c now k v ttl) now2 k).1 = none ∧
      dict_find (cache_get (cache_set c now k v ttl) now2 k).2 k = none) ∧
    (∀ k2, dict_find (cache_clear c) k2 = none) := by
  have hfind := dict_find_dict_set c k (v, now + 3600 * ttl)
  refine ⟨?_, ?_, ?_⟩
  · intro hfresh
    unfold cache_get cache_set
    rw [hfind]
    simp [if_pos hfresh]
  · intro hstale
    unfold cache_get cache_set
    rw [hfind]
    have : ¬ (now2 < now + 3600 * ttl) := by omega
    simp only [if_neg this]
    exact ⟨trivial, dict_find_del_set c k (v, now + 3600 * ttl) hnodup⟩
  · intro k2
    simp [cache_clear, dict_find]

/-- C9 witness: a concrete round trip through the cache: an entry stored at
clock 0 with a 1-hour TTL is returned at clock 3599, is a miss at clock
3600, is evicted by that lookup, and `clear` empties the store. -/
theorem c9_cache_ttl_witness :
    (cache_get (cache_set ([] : ScheduleCache Nat) 0 "schedule:123:False" 7 1) 3599
      "schedule:123:False").1 = some 7 ∧
    (cache_get (cache_set ([] : ScheduleCache Nat) 0 "schedule:123:False" 7 1) 3600
      "schedule:123:False").1 = none ∧
    dict_find (cache_get (cache_set ([] : ScheduleCache Nat) 0 "schedule:123:False" 7 1)
      3600 "schedule:123:False").2 "schedule:123:False" = none ∧
    (∀ k2, dict_find (cache_clear (cache_set ([] : ScheduleCache Nat) 0
      "schedule:123:False" 7 1)) k2 = none) := by
  have h := c9_cache_ttl ([] : ScheduleCache Nat) 0 3599 3600 1 "schedule:123:False" 7
    (by simp)
  exact ⟨h.1 (by omega), (h.2.1 (by omega)).1, (h.2.1 (by omega)).2, h.2.2⟩

/-- C10: when exactly one of `start_date` and `end_date` is present, the
date filter treats the lesson as valid on every date: the single present
bound is ignored (the code returns `True` whenever either field is falsy),
so the lesson is included even on dates outside that bound. -/
theorem c10_single_bound_ignored (l : Lesson) (d : PyDate)
    (h : (l.start_date = none ∧ l.end_date ≠ none) ∨
         (l.end_date = none ∧ l.start_date ≠ none)) :
    is_lesson_on_date l d = true := by
  rcases h with ⟨h1, _⟩ | ⟨h1, _⟩ <;>
    simp [is_lesson_on_date, truthy_str, h1]

/-- C10 witness: a lesson whose validity window ends on 2020-01-01 but has
no start bound is still reported valid on 2025-05-05, a date strictly
outside the bound (`date_le` shows 2025-05-05 is after the end bound). -/
theorem c10_single_bound_witness :
    is_lesson_on_date ⟨"Math", none, some "2020-01-01"⟩ ⟨2025, 5, 5, 0⟩ = true ∧
    parse_date "2020-01-01" = some (2020, 1, 1) ∧
    date_le (⟨2025, 5, 5, 0⟩ : PyDate).ymd (2020, 1, 1) = false := by
  refine ⟨?_, by decide, by decide⟩
  exact c10_single_bound_ignored ⟨"Math", none, some "2020-01-01"⟩ ⟨2025, 5, 5, 0⟩
    (Or.inl ⟨rfl, by simp⟩)

/-- C7: in busy-interval construction, after sorting, a new interval is
merged into the interval accumulated so far exactly when its start is at or
before the accumulated end and the location strings are exactly equal, with
the merged end the maximum of the two; concretely, two adjacent
empty-location intervals merge, an empty location never merges with a
non-empty one, and a contained interval demonstrates the `max` rule. -/
theorem c7_merge_condition :
    (∀ last cur : BusyInterval,
      merge_loop last [cur] =
        if cur.1 ≤ last.2.1 ∧ cur.2.2 = last.2.2 then
          [(last.1, max last.2.1 cur.2.1, last.2.2)]
        else [last, cur]) ∧
    merge_busy_intervals [(540, 630, ""), (630, 720, "")] = [(540, 720, "")] ∧
    merge_busy_intervals [(630, 720, "Gym"), (540, 630, "")] =
      [(540, 630, ""), (630, 720, "Gym")] ∧
    merge_busy_intervals [(540, 700, "A"), (600, 650, "A"), (660, 730, "A")] =
      [(540, 730, "A")] := by
    refine ⟨?_, by decide, by decide, by decide⟩
    intro last cur
    by_cases h : cur.1 ≤ last.2.1 ∧ cur.2.2 = last.2.2
    · simp [merge_loop, h]
    · simp [merge_loop, h]

/-- C6: when every compared entity has no lessons at all (two entities with
empty busy lists) and the minimum duration is 60, the intersector returns
exactly the single whole-day window labeled `"Любая"` ("Any") with
participant count 2. -/
theorem c6_all_unconstrained_window :
    find_free_intervals_with_location [[], []] 60 = [(540, 1260, "Любая", 2)] := by
  decide

/-- C2 (code bug): the location timeline is claimed to tile [540, 1260)
with contiguous non-overlapping segments, but for an entity busy at
09:00-10:30 at location "A" (slot 1) and 12:20-13:50 at location "B"
(slot 3) the builder emits the 10:30-12:20 gap twice — once as a transit
segment and once labeled with the next location — because `current_time` is
not advanced after the inter-lesson gap is appended; the output is
therefore not a tiling. -/
theorem c2_timeline_tiling_violation :
    get_group_location_timeline [(540, 630, "A"), (740, 830, "B")] 540 1260 =
      [(540, 630, some "A"), (630, 740, some "переезд_A_to_B"),
       (630, 740, some "B"), (740, 830, some "B"), (830, 1260, some "B")] ∧
    is_tiling 540 1260
      (get_group_location_timeline [(540, 630, "A"), (740, 830, "B")] 540 1260) = false := by
  exact ⟨by decide, by decide⟩

/-- C1 counterexample: the claim asserts that a candidate slice that is
long enough, overlaps no genuine busy interval, and on which every entity's
covering label is the same non-transit location — including all-empty-string
agreement — is accepted. At `all_busy = [[(500, 520, "")], [(500, 520, "")]]`
with `min_duration = 0` the slice (540, 1260) is a candidate, is 720 ≥ 0
minutes long, overlaps no busy interval, and both entities' covering label
is the empty string (not a transit marker); yet the output is empty, so no
window is accepted: the claim is false of the code. -/
theorem c1_claim_counterexample :
    (540, 1260) ∈ slice_pairs (time_points [[(500, 520, "")], [(500, 520, "")]]) ∧
    ((0 : Int) ≤ 1260 - 540) ∧
    (∀ busy ∈ [[(500, 520, "")], [(500, 520, "")]],
      overlaps_busy busy 540 1260 = false) ∧
    (∀ tl ∈ timelines_of [[(500, 520, "")], [(500, 520, "")]],
      covering_label tl 540 1260 = some (some "")) ∧
    is_transit (some "") = false ∧
    find_free_intervals_with_location [[(500, 520, "")], [(500, 520, "")]] 0 = [] := by
  refine ⟨by decide, by decide, by decide, by decide, by decide, by decide⟩

/-- C8: for every schedule document and target date, the per-date filter
returns exactly the lessons of the weekday matching the date whose validity
window contains the date (as a permutation of the filtered day table, so
slot ties are all retained), sorted ascending by slot number; validity is:
absent (or empty) bound ⇒ always valid, both bounds parsable ⇒ valid iff
start ≤ date ≤ end inclusive as calendar dates, unparsable bound ⇒ always
valid (the warning is non-fatal). -/
theorem c8_lesson_filter (schedule_data : ScheduleDoc) (date : PyDate) :
    (get_schedule_for_date schedule_data date).Pairwise (fun x y => x.2 ≤ y.2) ∧
    (get_schedule_for_date schedule_data date).Perm
      ((((schedule_data.find? (fun kv => kv.1 = weekday_name date.weekday)).map
        (fun kv => kv.2)).getD []).flatMap (fun sl =>
          (sl.2.filter (fun p => is_lesson_on_date p date)).map (fun p => (p, sl.1)))) ∧
    (∀ l : Lesson,
      ((l.start_date = none ∨ l.start_date = some "" ∨
        l.end_date = none ∨ l.end_date = some "") →
        is_lesson_on_date l date = true) ∧
      (∀ s e ds de, l.start_date = some s → l.end_date = some e →
        parse_date s = some ds → parse_date e = some de →
        (is_lesson_on_date l date = true ↔
          (date_le ds date.ymd = true ∧ date_le date.ymd de = true))) ∧
      (∀ s e, l.start_date = some s → l.end_date = some e →
        (parse_date s = none ∨ parse_date e = none) →
        is_lesson_on_date l date = true)) := by
  refine ⟨?_, ?_, ?_⟩
  · have hp := py_sort_pairwise (fun a b : Lesson × Int => decide (a.2 < b.2))
      (by intro a b h; simp at h ⊢; omega)
      (by intro a b c h1 h2; simp at h1 h2 ⊢; omega)
      (((((schedule_data.find? (fun kv => kv.1 = weekday_name date.weekday)).map
        (fun kv => kv.2)).getD []).flatMap (fun sl =>
          (sl.2.filter (fun p => is_lesson_on_date p date)).map (fun p => (p, sl.1)))))
    exact hp.imp (by intro a b hab; simp at hab; omega)
  · exact py_sort_perm _ _
  · intro l
    refine ⟨?_, ?_, ?_⟩
    · intro h
      rcases h with h | h | h | h <;> simp [is_lesson_on_date, truthy_str, h]
    · intro s e ds de hs he hps hpe
      have hempty : parse_date "" = none := rfl
      have hsne : s ≠ "" := by
        intro hcon
        rw [hcon, hempty] at hps
        exact Option.noConfusion hps
      have hene : e ≠ "" := by
        intro hcon
        rw [hcon, hempty] at hpe
        exact Option.noConfusion hpe
      have hts : truthy_str (some s) = true := by
        simp only [truthy_str, bne_iff_ne, ne_eq]
        exact hsne
      have hte : truthy_str (some e) = true := by
        simp only [truthy_str, bne_iff_ne, ne_eq]
        exact hene
      unfold is_lesson_on_date
      rw [hs, he, if_neg (by simp [hts, hte])]
      simp only [Option.getD_some]
      rw [hps, hpe]
      simp [Bool.and_eq_true]
    · intro s e hs he hnone
      unfold is_lesson_on_date
      rw [hs, he]
      by_cases hsne : s = ""
      · rw [if_pos (by simp [truthy_str, hsne])]
      by_cases hene : e = ""
      · rw [if_pos (by simp [truthy_str, hene])]
      have hts : truthy_str (some s) = true := by
        simp only [truthy_str, bne_iff_ne, ne_eq]
        exact hsne
      have hte : truthy_str (some e) = true := by
        simp only [truthy_str, bne_iff_ne, ne_eq]
        exact hene
      rw [if_neg (by simp [hts, hte])]
      simp only [Option.getD_some]
      rcases hnone with h | h
      · rw [h]
      · rw [h]
        cases parse_date s <;> rfl

/-- C8 witness: on a concrete Monday document the returned list is sorted by
slot, and a concrete both-bounds lesson is valid on 2025-10-13 because its
window contains the date. -/
theorem c8_lesson_filter_witness :
    (get_schedule_for_date
      [("monday", [(2, [⟨"Physics", none, none⟩]),
                   (1, [⟨"Math", some "2025-01-01", some "2025-12-31"⟩])])]
      ⟨2025, 10, 13, 0⟩).Pairwise (fun x y => x.2 ≤ y.2) ∧
    is_lesson_on_date ⟨"Math", some "2025-01-01", some "2025-12-31"⟩
      ⟨2025, 10, 13, 0⟩ = true := by
  have h := c8_lesson_filter
    [("monday", [(2, [⟨"Physics", none, none⟩]),
                 (1, [⟨"Math", some "2025-01-01", some "2025-12-31"⟩])])]
    ⟨2025, 10, 13, 0⟩
  refine ⟨h.1, ?_⟩
  exact ((h.2.2 ⟨"Math", some "2025-01-01", some "2025-12-31"⟩).2.1
    "2025-01-01" "2025-12-31" (2025, 1, 1) (2025, 12, 31) rfl rfl
    (by decide) (by decide)).mpr ⟨by decide, by decide⟩

/-- C3: a candidate slice on which two compared entities' covering labels
disagree — including a mix of unconstrained (`none`) and a concrete
location — is never output; in particular for entity A busy on [540, 630)
at "Gym" and entity B with no lessons, the whole comparison yields zero
windows, so none overlaps [630, 1260). -/
theorem c3_disagreement_rejected :
    (∀ (ab : List (List BusyInterval)) (md t u : Int) (tl1 tl2 : List TimelineSeg),
      tl1 ∈ timelines_of ab → tl2 ∈ timelines_of ab →
      covering_label tl1 t u ≠ covering_label tl2 t u →
      ∀ info : String × Nat, (t, u, info) ∉ find_free_intervals_with_location ab md) ∧
    find_free_intervals_with_location [[(540, 630, "Gym")], []] 0 = [] := by
  refine ⟨?_, by decide⟩
  intro ab md t u tl1 tl2 h1 h2 hdiff info hmem
  rcases (mem_find_free ab md (t, u, info)).mp hmem with ⟨p, hp, hres⟩
  obtain ⟨e1, e2, -, -, hlen, -, -, halleq⟩ := slice_result_some_shape _ _ _ _ _ _ hres
  rw [← e1, ← e2] at hlen halleq
  have hall := filterMap_length_all_some (fun tl => covering_label tl t u)
    (timelines_of ab) hlen
  obtain ⟨y1, hy1, hy1m⟩ := hall tl1 h1
  obtain ⟨y2, hy2, hy2m⟩ := hall tl2 h2
  have heq : y1 = y2 := halleq y1 hy1m y2 hy2m
  have hc1 : covering_label tl1 t u = some y1 := hy1
  have hc2 : covering_label tl2 t u = some y2 := hy2
  exact hdiff (by rw [hc1, hc2, heq])

/-- C3 witness: in the concrete mixed comparison (A busy at "Gym" during
[540, 630), B without lessons) the labels covering the slice (630, 1260)
disagree ("Gym" against unconstrained), so that slice is not output as a
window for two participants. -/
theorem c3_disagreement_witness :
    (630, 1260, ("Gym", 2)) ∉
      find_free_intervals_with_location [[(540, 630, "Gym")], []] 0 := by
  exact c3_disagreement_rejected.1 [[(540, 630, "Gym")], []] 0 630 1260
    (get_group_location_timeline [(540, 630, "Gym")] day_start day_end)
    (get_group_location_timeline [] day_start day_end)
    (by decide) (by decide) (by decide) ("Gym", 2)

/-- C5: every output window satisfies start < end and
end - start ≥ min_duration, and the output list is sorted (strictly)
ascending by window start. -/
theorem c5_windows_wellformed_sorted (ab : List (List BusyInterval)) (md : Int) :
    (∀ w ∈ find_free_intervals_with_location ab md, w.1 < w.2.1 ∧ md ≤ w.2.1 - w.1) ∧
    (find_free_intervals_with_location ab md).Pairwise (fun w1 w2 => w1.1 < w2.1) := by
  constructor
  · intro w hw
    rcases (mem_find_free ab md w).mp hw with ⟨p, hp, hres⟩
    obtain ⟨e1, e2, -, hdur, -, -, -, -⟩ := slice_result_some_shape _ _ _ _ _ _ hres
    have hlt := slice_pairs_lt _ (sorted_time_points ab) p hp
    constructor
    · rw [e1, e2]
      exact hlt
    · rw [e1, e2]
      omega
  · unfold find_free_intervals_with_location
    refine List.Pairwise.filterMap _ ?_ (slice_pairs_fst_lt _ (sorted_time_points ab))
    intro p q hpq w1 hw1 w2 hw2
    have hr1 : slice_result (timelines_of ab) ab md p.1 p.2 = some w1 :=
      Option.mem_def.mp hw1
    have hr2 : slice_result (timelines_of ab) ab md q.1 q.2 = some w2 :=
      Option.mem_def.mp hw2
    obtain ⟨f1, -, -, -, -, -, -, -⟩ := slice_result_some_shape _ _ _ _ _ _ hr1
    obtain ⟨g1, -, -, -, -, -, -, -⟩ := slice_result_some_shape _ _ _ _ _ _ hr2
    rw [f1, g1]
    exact hpq

/-- C5 witness: instantiating the well-formedness theorem on a concrete
comparison whose output is the single window (630, 1260, "Gym", 2). -/
theorem c5_windows_wellformed_witness :
    (630 : Int) < 1260 ∧ (0 : Int) ≤ 1260 - 630 := by
  have h := (c5_windows_wellformed_sorted [[(540, 630, "Gym")], [(540, 630, "Gym")]] 0).1
    (630, 1260, ("Gym", 2)) (by decide)
  exact ⟨h.1, h.2⟩

/-- Helper for C1: when every entity's covering label on the slice is the
same non-transit string `s`, the slice decision is fully determined: it is
accepted with label `s` when `s` is nonempty and rejected when `s` is the
empty string (truthiness of `locations[0]`). -/
theorem slice_result_agree (tls : List (List TimelineSeg))
    (ab : List (List BusyInterval)) (md t u : Int) (s : String) (hne : tls ≠ [])
    (hdur : md ≤ u - t)
    (hbusy : ∀ busy ∈ ab, overlaps_busy busy t u = false)
    (hcov : ∀ tl ∈ tls, covering_label tl t u = some (some s))
    (htrans : ("переезд_".data.isPrefixOf s.data) = false) :
    slice_result tls ab md t u =
      if s = "" then none else some (t, u, s, tls.length) := by
  have hlabels : slice_labels tls t u = List.replicate tls.length (some s) :=
    filterMap_all_const _ tls (some s) hcov
  obtain ⟨n, hn⟩ : ∃ n, tls.length = n + 1 := by
    cases tls with
    | nil => exact absurd rfl hne
    | cons a l => exact ⟨l.length, rfl⟩
  have htr2 : is_transit (some s) = false := htrans
  unfold slice_result
  rw [hlabels, hn]
  rw [if_neg (by omega)]
  rw [if_neg (by simp)]
  rw [if_neg (by
    intro hcon
    rcases List.any_eq_true.mp hcon with ⟨x, hx, hxt⟩
    rw [(List.mem_replicate.mp hx).2] at hxt
    rw [htr2] at hxt
    exact Bool.noConfusion hxt)]
  rw [if_neg (by
    intro hcon
    rcases List.any_eq_true.mp hcon with ⟨busy, hb, hbt⟩
    rw [hbusy busy hb] at hbt
    exact Bool.noConfusion hbt)]
  rw [if_neg (by simp [List.replicate_succ])]
  rw [List.replicate_succ]
  show (if (some s :: List.replicate n (some s)).dedup.length = 1 ∧ s ≠ "" then
      some (t, u, s, n + 1) else none) = if s = "" then none else some (t, u, s, n + 1)
  have hdedup : (some s :: List.replicate n (some s)).dedup = [some s] := by
    rw [← List.replicate_succ]
    exact dedup_replicate_succ n (some s)
  by_cases hs : s = ""
  · rw [if_neg (by simp [hs]), if_pos hs]
  · rw [if_pos ⟨by rw [hdedup]; rfl, hs⟩, if_neg hs]

/-- C1 (amended): a candidate slice that is at least `min_duration` long,
overlaps no entity's genuine busy interval, and on which every entity's
covering label is the same non-transit location string is accepted with
that shared label exactly when the label is a nonempty string; when the
shared label is the empty string (no recorded location) the slice is
rejected, because the acceptance test requires `locations[0]` to be truthy. -/
theorem c1_location_agreement (ab : List (List BusyInterval)) (md t u : Int)
    (s : String) (hne : ab ≠ [])
    (hp : (t, u) ∈ slice_pairs (time_points ab))
    (hdur : md ≤ u - t)
    (hbusy : ∀ busy ∈ ab, overlaps_busy busy t u = false)
    (hcov : ∀ tl ∈ timelines_of ab, covering_label tl t u = some (some s))
    (htrans : ("переезд_".data.isPrefixOf s.data) = false) :
    (s ≠ "" → (t, u, s, ab.length) ∈ find_free_intervals_with_location ab md) ∧
    (s = "" → ∀ info : String × Nat,
      (t, u, info) ∉ find_free_intervals_with_location ab md) := by
  have htlne : timelines_of ab ≠ [] := by
    unfold timelines_of
    simpa using hne
  have hres := slice_result_agree (timelines_of ab) ab md t u s htlne hdur hbusy hcov htrans
  constructor
  · intro hs
    rw [if_neg hs] at hres
    have hlen : (timelines_of ab).length = ab.length := List.length_map _ _
    rw [hlen] at hres
    exact (mem_find_free ab md (t, u, s, ab.length)).mpr ⟨(t, u), hp, hres⟩
  · intro hs
    rw [if_pos hs] at hres
    exact not_mem_find_free_of_none ab md t u hres

/-- C1 witness: two entities both busy at "Gym" during [540, 630) agree on
the nonempty label "Gym" over the slice (630, 1260), which is accepted as a
window for both participants. -/
theorem c1_location_agreement_witness :
    (630, 1260, ("Gym", 2)) ∈
      find_free_intervals_with_location [[(540, 630, "Gym")], [(540, 630, "Gym")]] 0 := by
  exact (c1_location_agreement [[(540, 630, "Gym")], [(540, 630, "Gym")]] 0 630 1260 "Gym"
    (by decide) (by decide) (by decide) (by decide) (by decide) (by decide)).1 (by decide)

/-- Helper for C4: the windows kept from a slice list have exactly the
extents of the slices whose decision is positive, in order. -/
theorem map_extents_filterMap {β : Type} (f : Int × Int → Option (Int × Int × β))
    (hshape : ∀ p w, f p = some w → w.1 = p.1 ∧ w.2.1 = p.2) (l : List (Int × Int)) :
    (l.filterMap f).map (fun w => (w.1, w.2.1)) = l.filter (fun p => (f p).isSome) := by
  induction l with
  | nil => rfl
  | cons p rest ih =>
    rw [List.filterMap_cons, List.filter_cons]
    cases hfp : f p with
    | none =>
      rw [if_neg (by simp [hfp])]
      exact ih
    | some w =>
      have hs := hshape p w hfp
      rw [if_pos (by simp [hfp]), List.map_cons, ih, hs.1, hs.2, Prod.mk.eta]

/-- Helper for C4: an accepted slice passes the coverage-count check and the
genuine-busy check. -/
theorem slice_accepted_facts (ab : List (List BusyInterval)) (md a b : Int)
    (h : slice_accepted ab md a b = true) :
    (slice_labels (timelines_of ab) a b).length = (timelines_of ab).length ∧
    ab.any (fun busy => overlaps_busy busy a b) = false := by
  unfold slice_accepted at h
  rcases Option.isSome_iff_exists.mp h with ⟨w, hw⟩
  obtain ⟨-, -, -, -, hlen, -, hbusy, -⟩ := slice_result_some_shape _ _ _ _ _ _ hw
  exact ⟨hlen, hbusy⟩

/-- Helper for C4: an accepted slice overlaps no genuine busy interval of
any compared entity. -/
theorem no_overlap_of_accepted (ab : List (List BusyInterval)) (md a b : Int)
    (h : slice_accepted ab md a b = true) :
    ∀ busy ∈ ab, ∀ iv ∈ busy, ¬ (iv.1 < b ∧ a < iv.2.1) := by
  intro busy hbusy iv hiv hcon
  have hfacts := (slice_accepted_facts ab md a b h).2
  have h1 := List.any_eq_false.mp hfacts busy hbusy
  have h2 := List.any_eq_false.mp (Bool.not_eq_true _ ▸ h1 : overlaps_busy busy a b = false) iv hiv
  exact h2 (decide_eq_true hcon)

/-- Helper for C4: on an accepted slice every entity's timeline has a
segment covering the slice. -/
theorem covered_of_accepted (ab : List (List BusyInterval)) (md a b : Int)
    (h : slice_accepted ab md a b = true) :
    ∀ tl ∈ timelines_of ab, ∃ seg ∈ tl, seg.1 ≤ a ∧ b ≤ seg.2.1 := by
  intro tl htl
  have hlen := (slice_accepted_facts ab md a b h).1
  obtain ⟨y, hy, -⟩ := filterMap_length_all_some (fun tl => covering_label tl a b)
    (timelines_of ab) hlen tl htl
  have hy2 : covering_label tl a b = some y := hy
  obtain ⟨seg, hseg, hcov, -⟩ := covering_label_some tl a b y hy2
  exact ⟨seg, hseg, hcov⟩

/-- C4: under the domain of busy intervals the pipeline actually produces
(starts between day start and day end, positive lengths), no two accepted
slices are ever adjacent — every interior time point is a genuine busy
endpoint, and the slice on one side of it is always rejected — so every
maximal contiguous run of accepted slices is a single slice; the output
windows have exactly the extents of the accepted slices in order (so
accepted slices separated by a rejected slice are never joined, and each
run is reported as exactly one window spanning its full extent), and every
window's participant count equals the number of compared entities. -/
theorem c4_single_slice_runs (ab : List (List BusyInterval)) (md : Int)
    (hdom : ∀ busy ∈ ab, ∀ iv ∈ busy,
      day_start ≤ iv.1 ∧ iv.1 ≤ day_end ∧ iv.1 < iv.2.1) :
    (∀ a b c : Int, a ∈ time_points ab → b ∈ time_points ab → c ∈ time_points ab →
      a < b → b < c →
      ¬ (slice_accepted ab md a b = true ∧ slice_accepted ab md b c = true)) ∧
    ((find_free_intervals_with_location ab md).map (fun w => (w.1, w.2.1)) =
      (slice_pairs (time_points ab)).filter (fun p => slice_accepted ab md p.1 p.2)) ∧
    (∀ w ∈ find_free_intervals_with_location ab md, w.2.2.2 = ab.length) := by
  refine ⟨?_, ?_, ?_⟩
  · intro a b c ha hb hc hab hbc ⟨hacc1, hacc2⟩
    have hno1 := no_overlap_of_accepted ab md a b hacc1
    have hno2 := no_overlap_of_accepted ab md b c hacc2
    have hds : day_start = (540 : Int) := rfl
    have hde : day_end = (1260 : Int) := rfl
    rcases mem_time_points ab b hb with hb0 | hb0 | ⟨busy, hbusy, iv, hiv, hse⟩
    · -- b is the day start: no time point can lie strictly before it
      rcases mem_time_points ab a ha with ha0 | ha0 | ⟨busyA, hbA, ivA, hivA, hseA⟩
      · omega
      · omega
      · have hdA := hdom busyA hbA ivA hivA
        rcases hseA with ha1 | ha1 <;> omega
    · -- b is the day end: the right-hand slice cannot be accepted
      rcases mem_time_points ab c hc with hc0 | hc0 | ⟨busyC, hbC, ivC, hivC, hseC⟩
      · omega
      · omega
      · have htl : get_group_location_timeline busyC day_start day_end ∈ timelines_of ab :=
          List.mem_map_of_mem _ hbC
        obtain ⟨seg, hseg, hcov1, hcov2⟩ := covered_of_accepted ab md b c hacc2 _ htl
        rcases timeline_end_shape busyC seg hseg with
          ⟨iv2, hiv2, hend⟩ | ⟨iv2, hiv2, hh1, hh2⟩ | hdend
        · have hd2 := hdom busyC hbC iv2 hiv2
          omega
        · exact hno2 busyC hbC iv2 hiv2 ⟨by omega, by omega⟩
        · omega
    · -- b is a genuine busy endpoint: one adjacent slice overlaps that interval
      have hd := hdom busy hbusy iv hiv
      rcases hse with hb1 | hb1
      · exact hno2 busy hbusy iv hiv ⟨by omega, by omega⟩
      · exact hno1 busy hbusy iv hiv ⟨by omega, by omega⟩
  · unfold find_free_intervals_with_location
    exact map_extents_filterMap _
      (fun p w hw => ⟨(slice_result_some_shape _ _ _ _ _ _ hw).1,
        (slice_result_some_shape _ _ _ _ _ _ hw).2.1⟩) _
  · intro w hw
    rcases (mem_find_free ab md w).mp hw with ⟨p, hp, hres⟩
    have hcount := (slice_result_some_shape _ _ _ _ _ _ hres).2.2.1
    rw [hcount]
    exact List.length_map _ _

/-- C4 witness: with entity A busy 09:00-10:30 and 12:20-13:50 at "Gym" and
entity B busy 09:00-10:30 at "Gym", the accepted slices (630, 740) and
(830, 1260) are separated by the rejected busy slice (740, 830) and are
reported as two separate windows with the accepted extents; moreover the
adjacent slices around the interior point 740 are never both accepted. -/
theorem c4_single_slice_runs_witness :
    ((find_free_intervals_with_location
        [[(540, 630, "Gym"), (740, 830, "Gym")], [(540, 630, "Gym")]] 0).map
      (fun w => (w.1, w.2.1)) =
      (slice_pairs (time_points [[(540, 630, "Gym"), (740, 830, "Gym")], [(540, 630, "Gym")]])).filter
        (fun p => slice_accepted [[(540, 630, "Gym"), (740, 830, "Gym")], [(540, 630, "Gym")]] 0 p.1 p.2)) ∧
    ¬ (slice_accepted [[(540, 630, "Gym"), (740, 830, "Gym")], [(540, 630, "Gym")]] 0 630 740 = true ∧
       slice_accepted [[(540, 630, "Gym"), (740, 830, "Gym")], [(540, 630, "Gym")]] 0 740 830 = true) := by
  have h := c4_single_slice_runs
    [[(540, 630, "Gym"), (740, 830, "Gym")], [(540, 630, "Gym")]] 0 (by decide)
  exact ⟨h.2.1, h.1 630 740 830 (by decide) (by decide) (by decide)
    (by decide) (by decide)⟩
